import Mathlib

/-!
Verification development for the remus messaging protocol core.

The Rust sources are shallowly embedded: bytes are `List Nat` (each element a
byte value), machine integers are `Nat` with explicit `% 2 ^ w` where the code
casts, and fallible paths return explicit result types.  A Rust `panic`
(out-of-bounds slice index) is modelled as a dedicated result constructor so
that totality claims can be settled.
-/

namespace Remus

/-- Big-endian byte serialisation of a natural number into `k` bytes,
mirroring Rust's `to_be_bytes` (most significant byte first). -/
def natToBytesBE : Nat → Nat → List Nat
  | 0, _ => []
  | k + 1, n => natToBytesBE k (n / 256) ++ [n % 256]

/-- Big-endian byte deserialisation, mirroring Rust's `from_be_bytes`. -/
def bytesToNatBE (l : List Nat) : Nat :=
  l.foldl (fun acc b => acc * 256 + b) 0

theorem natToBytesBE_length (k n : Nat) : (natToBytesBE k n).length = k := by
  induction k generalizing n with
  | zero => rfl
  | succ k ih => simp [natToBytesBE, ih]

theorem foldl_natToBytesBE (k n acc : Nat) :
    (natToBytesBE k n).foldl (fun a b => a * 256 + b) acc
      = acc * 256 ^ k + n % 256 ^ k := by
  induction k generalizing n acc with
  | zero => simp [natToBytesBE, Nat.mod_one]
  | succ k ih =>
    rw [natToBytesBE, List.foldl_append, ih]
    simp only [List.foldl_cons, List.foldl_nil]
    have h : n % 256 ^ (k + 1) = n % 256 + 256 * (n / 256 % 256 ^ k) := by
      rw [pow_succ, mul_comm (256 ^ k) 256, Nat.mod_mul]
    rw [h, pow_succ]
    ring

theorem bytesToNatBE_natToBytesBE (k n : Nat) :
    bytesToNatBE (natToBytesBE k n) = n % 256 ^ k := by
  simpa [bytesToNatBE] using foldl_natToBytesBE k n 0

/-- Drop the first list from an append when its length is known. -/
theorem drop_len_append {n : Nat} (l₁ l₂ : List Nat) (h : l₁.length = n) :
    (l₁ ++ l₂).drop n = l₂ := by
  subst h
  induction l₁ with
  | nil => rfl
  | cons a t ih => simp [ih]

/-- Take the first list from an append when its length is known. -/
theorem take_len_append {n : Nat} (l₁ l₂ : List Nat) (h : l₁.length = n) :
    (l₁ ++ l₂).take n = l₁ := by
  subst h
  induction l₁ with
  | nil => rfl
  | cons a t ih => simp [ih]

/-- Taking few enough elements from an append only looks at the first list. -/
theorem take_append_of_le (l₁ l₂ : List Nat) (n : Nat) (h : n ≤ l₁.length) :
    (l₁ ++ l₂).take n = l₁.take n := by
  induction l₁ generalizing n with
  | nil =>
    have hn : n = 0 := Nat.le_zero.mp (by simpa using h)
    subst hn
    rfl
  | cons a t ih =>
    cases n with
    | zero => rfl
    | succ n => simpa using ih n (by simpa using h)

/-- Indexing with a default is reading the head after a drop. -/
theorem getD_eq_headD_drop (l : List Nat) (i : Nat) :
    l.getD i 0 = (l.drop i).headD 0 := by
  induction l generalizing i with
  | nil => simp
  | cons a t ih =>
    cases i with
    | zero => rfl
    | succ i => simp [ih i]

/-- The four wire message types of `MessageType` in src/lib.rs. -/
inductive MessageType where
  | request
  | response
  | event
  | error
deriving DecidableEq

/-- The discriminant byte of `self.msg_type as u8` (declaration order 0..3). -/
def MessageType.toByte : MessageType → Nat
  | .request => 0
  | .response => 1
  | .event => 2
  | .error => 3

/-- The decoding `match` on the type byte in `Message::decode`. -/
def MessageType.ofByte : Nat → Option MessageType
  | 0 => some .request
  | 1 => some .response
  | 2 => some .event
  | 3 => some .error
  | _ => none

theorem MessageType.ofByte_toByte (t : MessageType) :
    MessageType.ofByte t.toByte = some t := by
  cases t <;> rfl

/-- The `MessageFlags` bit constants from src/lib.rs (a `u8` bitflags set). -/
def MessageFlags.NONE : Nat := 0
def MessageFlags.ENCRYPTED : Nat := 0x01
def MessageFlags.COMPRESSED : Nat := 0x02
def MessageFlags.URGENT : Nat := 0x04
def MessageFlags.REQUIRES_ACK : Nat := 0x08
def MessageFlags.IDEMPOTENT : Nat := 0x10
def MessageFlags.HIGH_PRIORITY : Nat := 0x20
def MessageFlags.REQUIRES_AUTH : Nat := 0x40

/-- The union of all defined `MessageFlags` bits (0x01..0x40), which is the
mask `bitflags`' `from_bits_truncate` keeps. -/
def MessageFlags.ALL : Nat := 0x7F

/-- `MessageFlags::from_bits_truncate`: unknown bits (here only 0x80) are
cleared, never rejected. -/
def MessageFlags.from_bits_truncate (b : Nat) : Nat := b &&& MessageFlags.ALL

/-- The `Message` record of src/lib.rs.  Integer fields are `Nat`; validity
side conditions (`flags < 256`, `timestamp < 2^64`, ...) appear as theorem
hypotheses where the Rust types would enforce them. -/
structure Message where
  msg_type : MessageType
  flags : Nat
  payload : List Nat
  timestamp : Nat
  request_id : Nat
  priority : Nat
  ttl : Nat
  routing_info : Option String
  context : Option String
deriving DecidableEq

/-- `Message::new` from src/lib.rs; the wall-clock microsecond timestamp is an
explicit `now` input. -/
def Message.new (msg_type : MessageType) (flags : Nat) (request_id : Nat)
    (payload : List Nat) (now : Nat) : Message :=
  { msg_type := msg_type
    flags := flags
    payload := payload
    timestamp := now
    request_id := request_id
    priority := 0
    ttl := 30000
    routing_info := none
    context := none }

/-- `Message::encode` from src/lib.rs: successive `extend_from_slice` calls,
i.e. concatenation; `payload.len() as u32` is the `% 2 ^ 32` cast. -/
def Message.encode (m : Message) : List Nat :=
  [m.msg_type.toByte] ++ [m.flags] ++ natToBytesBE 8 m.timestamp ++
    natToBytesBE 8 m.request_id ++ [m.priority] ++ natToBytesBE 4 m.ttl ++
    natToBytesBE 4 (m.payload.length % 2 ^ 32) ++ m.payload

/-- Error enum `ProtocolError` from src/lib.rs. -/
inductive ProtocolError where
  | invalidFormat (msg : String)
  | versionMismatch
  | authenticationRequired
  | compressionError (msg : String)
  | ioError
  | encryptionError (msg : String)
deriving DecidableEq

/-- Outcome of running `Message::decode`: a value, a returned error, or a Rust
panic (out-of-bounds slice index, which aborts rather than returning). -/
inductive DecodeResult where
  | ok (m : Message)
  | err (e : ProtocolError)
  | panicked
deriving DecidableEq

/-- `Message::decode` from src/lib.rs.  The Rust code checks `buf.len() < 24`,
reads the type byte, then slices fixed ranges; every slice up to `buf[19..23]`
is in bounds once `len ≥ 24`, but the payload-length slice `buf[23..27]`
requires `len ≥ 27` and panics on lengths 24..26 — modelled by the
`panicked` branch.  `from_bits_truncate` masks the flags byte with 0x7F. -/
def Message.decode (buf : List Nat) : DecodeResult :=
  if buf.length < 24 then .err (.invalidFormat "Message too short")
  else
    match MessageType.ofByte (buf.getD 0 0) with
    | none => .err (.invalidFormat "Invalid message type")
    | some msg_type =>
      if buf.length < 27 then .panicked
      else
        let flags := MessageFlags.from_bits_truncate (buf.getD 1 0)
        let timestamp := bytesToNatBE ((buf.drop 2).take 8)
        let request_id := bytesToNatBE ((buf.drop 10).take 8)
        let priority := buf.getD 18 0
        let ttl := bytesToNatBE ((buf.drop 19).take 4)
        let payload_len := bytesToNatBE ((buf.drop 23).take 4)
        if buf.length < 27 + payload_len then
          .err (.invalidFormat "Invalid payload length")
        else
          .ok { msg_type := msg_type
                flags := flags
                payload := (buf.drop 27).take payload_len
                timestamp := timestamp
                request_id := request_id
                priority := priority
                ttl := ttl
                routing_info := none
                context := none }

theorem Message.encode_cons (m : Message) :
    m.encode = m.msg_type.toByte :: m.flags :: (natToBytesBE 8 m.timestamp ++
      (natToBytesBE 8 m.request_id ++ (m.priority :: (natToBytesBE 4 m.ttl ++
        (natToBytesBE 4 (m.payload.length % 2 ^ 32) ++ m.payload))))) := rfl

theorem Message.encode_length (m : Message) :
    m.encode.length = 27 + m.payload.length := by
  simp [Message.encode, natToBytesBE_length]
  omega

theorem encode_drop2 (m : Message) :
    m.encode.drop 2 = natToBytesBE 8 m.timestamp ++
      (natToBytesBE 8 m.request_id ++ (m.priority :: (natToBytesBE 4 m.ttl ++
        (natToBytesBE 4 (m.payload.length % 2 ^ 32) ++ m.payload)))) := by
  rw [Message.encode_cons]
  rfl

theorem encode_drop10 (m : Message) :
    m.encode.drop 10 = natToBytesBE 8 m.request_id ++
      (m.priority :: (natToBytesBE 4 m.ttl ++
        (natToBytesBE 4 (m.payload.length % 2 ^ 32) ++ m.payload))) := by
  rw [show m.encode.drop 10 = (m.encode.drop 2).drop 8 by rw [List.drop_drop],
    encode_drop2, drop_len_append _ _ (natToBytesBE_length 8 m.timestamp)]

theorem encode_drop18 (m : Message) :
    m.encode.drop 18 = m.priority :: (natToBytesBE 4 m.ttl ++
      (natToBytesBE 4 (m.payload.length % 2 ^ 32) ++ m.payload)) := by
  rw [show m.encode.drop 18 = (m.encode.drop 10).drop 8 by rw [List.drop_drop],
    encode_drop10, drop_len_append _ _ (natToBytesBE_length 8 m.request_id)]

theorem encode_drop19 (m : Message) :
    m.encode.drop 19 = natToBytesBE 4 m.ttl ++
      (natToBytesBE 4 (m.payload.length % 2 ^ 32) ++ m.payload) := by
  rw [show m.encode.drop 19 = (m.encode.drop 18).drop 1 by rw [List.drop_drop],
    encode_drop18]
  rfl

theorem encode_drop23 (m : Message) :
    m.encode.drop 23 = natToBytesBE 4 (m.payload.length % 2 ^ 32) ++ m.payload := by
  rw [show m.encode.drop 23 = (m.encode.drop 19).drop 4 by rw [List.drop_drop],
    encode_drop19, drop_len_append _ _ (natToBytesBE_length 4 m.ttl)]

theorem encode_drop27 (m : Message) : m.encode.drop 27 = m.payload := by
  rw [show m.encode.drop 27 = (m.encode.drop 23).drop 4 by rw [List.drop_drop],
    encode_drop23,
    drop_len_append _ _ (natToBytesBE_length 4 (m.payload.length % 2 ^ 32))]

theorem encode_getD0 (m : Message) : m.encode.getD 0 0 = m.msg_type.toByte := by
  rw [Message.encode_cons]
  rfl

theorem encode_getD1 (m : Message) : m.encode.getD 1 0 = m.flags := by
  rw [Message.encode_cons]
  rfl

theorem encode_getD18 (m : Message) : m.encode.getD 18 0 = m.priority := by
  rw [getD_eq_headD_drop, encode_drop18]
  rfl

theorem encode_timestamp (m : Message) (hts : m.timestamp < 2 ^ 64) :
    bytesToNatBE ((m.encode.drop 2).take 8) = m.timestamp := by
  rw [encode_drop2, take_len_append _ _ (natToBytesBE_length 8 m.timestamp),
    bytesToNatBE_natToBytesBE, show (256 : Nat) ^ 8 = 2 ^ 64 by norm_num]
  exact Nat.mod_eq_of_lt hts

theorem encode_request_id (m : Message) (hrid : m.request_id < 2 ^ 64) :
    bytesToNatBE ((m.encode.drop 10).take 8) = m.request_id := by
  rw [encode_drop10, take_len_append _ _ (natToBytesBE_length 8 m.request_id),
    bytesToNatBE_natToBytesBE, show (256 : Nat) ^ 8 = 2 ^ 64 by norm_num]
  exact Nat.mod_eq_of_lt hrid

theorem encode_ttl (m : Message) (httl : m.ttl < 2 ^ 32) :
    bytesToNatBE ((m.encode.drop 19).take 4) = m.ttl := by
  rw [encode_drop19, take_len_append _ _ (natToBytesBE_length 4 m.ttl),
    bytesToNatBE_natToBytesBE, show (256 : Nat) ^ 4 = 2 ^ 32 by norm_num]
  exact Nat.mod_eq_of_lt httl

theorem encode_payload_len (m : Message) (hlen : m.payload.length < 2 ^ 32) :
    bytesToNatBE ((m.encode.drop 23).take 4) = m.payload.length := by
  have h1 : m.payload.length % 2 ^ 32 = m.payload.length := Nat.mod_eq_of_lt hlen
  rw [encode_drop23,
    take_len_append _ _ (natToBytesBE_length 4 (m.payload.length % 2 ^ 32)),
    bytesToNatBE_natToBytesBE, show (256 : Nat) ^ 4 = 2 ^ 32 by norm_num, h1, h1]

/-- Round trip at the codec level: decoding an encoded valid message succeeds
and reproduces every field except that the flags byte is masked to the seven
defined bits and the two in-memory-only strings come back absent. -/
theorem decode_encode (m : Message) (hts : m.timestamp < 2 ^ 64)
    (hrid : m.request_id < 2 ^ 64) (httl : m.ttl < 2 ^ 32)
    (hlen : m.payload.length < 2 ^ 32) :
    Message.decode m.encode =
      .ok { m with flags := m.flags &&& 127, routing_info := none,
                   context := none } := by
  have hlenE := Message.encode_length m
  simp only [Message.decode, MessageFlags.from_bits_truncate, MessageFlags.ALL,
    encode_getD0 m, MessageType.ofByte_toByte, encode_getD1 m,
    encode_getD18 m, encode_timestamp m hts, encode_request_id m hrid,
    encode_ttl m httl, encode_payload_len m hlen, encode_drop27 m, hlenE,
    List.take_length]
  rw [if_neg (by omega), if_neg (by omega), if_neg (by omega)]

theorem ofByte_eq_none_of_ge (b : Nat) (h : 4 ≤ b) :
    MessageType.ofByte b = none := by
  obtain ⟨c, rfl⟩ : ∃ c, b = c + 4 := ⟨b - 4, by omega⟩
  rfl

theorem ofByte_lt_four (b : Nat) (h : b < 4) :
    ∃ t, MessageType.ofByte b = some t := by
  interval_cases b
  · exact ⟨.request, rfl⟩
  · exact ⟨.response, rfl⟩
  · exact ⟨.event, rfl⟩
  · exact ⟨.error, rfl⟩

/-- Success of a decode outcome. -/
def DecodeResult.succeeds (r : DecodeResult) : Prop := ∃ m, r = .ok m

/-- Exact characterisation of when `Message::decode` returns a message: the
type byte is in range, at least the full 27-byte header is present, and the
declared payload length fits in the remaining bytes.  The flags byte (index 1)
does not occur in the right-hand side. -/
theorem decode_succeeds_iff (buf : List Nat) :
    (Message.decode buf).succeeds ↔
      buf.getD 0 0 < 4 ∧ 27 ≤ buf.length ∧
        27 + bytesToNatBE ((buf.drop 23).take 4) ≤ buf.length := by
  simp only [Message.decode]
  by_cases h24 : buf.length < 24
  · rw [if_pos h24]
    simp only [DecodeResult.succeeds]
    constructor
    · rintro ⟨m, hm⟩
      exact absurd hm (by simp)
    · rintro ⟨-, h, -⟩
      omega
  · rw [if_neg h24]
    rcases Nat.lt_or_ge (buf.getD 0 0) 4 with hb | hb
    · obtain ⟨t, ht⟩ := ofByte_lt_four _ hb
      simp only [ht]
      by_cases h27 : buf.length < 27
      · rw [if_pos h27]
        simp only [DecodeResult.succeeds]
        constructor
        · rintro ⟨m, hm⟩
          exact absurd hm (by simp)
        · rintro ⟨-, h, -⟩
          omega
      · rw [if_neg h27]
        by_cases hpl : buf.length < 27 + bytesToNatBE ((buf.drop 23).take 4)
        · rw [if_pos hpl]
          simp only [DecodeResult.succeeds]
          constructor
          · rintro ⟨m, hm⟩
            exact absurd hm (by simp)
          · rintro ⟨-, -, h⟩
            omega
        · rw [if_neg hpl]
          simp only [DecodeResult.succeeds]
          constructor
          · rintro ⟨m, hm⟩
            exact ⟨hb, by omega, by omega⟩
          · rintro -
            exact ⟨_, rfl⟩
    · have ht : MessageType.ofByte (buf.getD 0 0) = none :=
        ofByte_eq_none_of_ge _ hb
      simp only [ht]
      simp only [DecodeResult.succeeds]
      constructor
      · rintro ⟨m, hm⟩
        exact absurd hm (by simp)
      · rintro ⟨h, -, -⟩
        omega

/-- C2: the claim says `Message::decode` is total on every byte sequence —
never panicking — and in particular must return a decoded `Message` for any
input of length at least 24 with a valid type byte and a fitting declared
payload length.  The code instead takes the payload-length slice
`buf[23..27]`, which is out of bounds for inputs of length 24..26: on the
24-byte all-zero buffer (valid type byte 0) it panics instead of returning.
This is a code bug: the spec's "never panics" contract and the code's own
"Minimum message size" comment are violated by the insufficient `< 24`
bound check for the 27-byte header. -/
theorem c2_decode_panics_on_len24 :
    Message.decode (List.replicate 24 0) = DecodeResult.panicked := by decide

def c3Msg : Message :=
  { msg_type := .request
    flags := 0
    payload := []
    timestamp := 0
    request_id := 0
    priority := 0
    ttl := 0
    routing_info := none
    context := none }

/-- C3 counterexample: the claim says the header is 24 bytes so that
`encode(m)` has length `24 + payload.len()`; for the empty-payload message
`c3Msg` the encoding actually has length 27 (the field list
1+1+8+8+1+4+4 sums to 27, not 24). -/
theorem c3_header_cex :
    (Message.encode c3Msg).length ≠ 24 + c3Msg.payload.length := by decide

/-- C3 (amended): `Message::encode` lays out
type(1) | flags(1) | timestamp(8) | request_id(8) | priority(1) | ttl(4) |
payload_len(4) | payload, all multi-byte integers big-endian, with a total
header of 27 bytes (not 24), so the encoding has length
`27 + payload.len()`. -/
theorem c3_layout_amended (m : Message) :
    (Message.encode m).length = 27 + m.payload.length ∧
    (Message.encode m).getD 0 0 = m.msg_type.toByte ∧
    (Message.encode m).getD 1 0 = m.flags ∧
    ((Message.encode m).drop 2).take 8 = natToBytesBE 8 m.timestamp ∧
    ((Message.encode m).drop 10).take 8 = natToBytesBE 8 m.request_id ∧
    (Message.encode m).getD 18 0 = m.priority ∧
    ((Message.encode m).drop 19).take 4 = natToBytesBE 4 m.ttl ∧
    ((Message.encode m).drop 23).take 4
      = natToBytesBE 4 (m.payload.length % 2 ^ 32) ∧
    (Message.encode m).drop 27 = m.payload :=
  ⟨Message.encode_length m, encode_getD0 m, encode_getD1 m,
    by rw [encode_drop2, take_len_append _ _ (natToBytesBE_length 8 m.timestamp)],
    by rw [encode_drop10, take_len_append _ _ (natToBytesBE_length 8 m.request_id)],
    encode_getD18 m,
    by rw [encode_drop19, take_len_append _ _ (natToBytesBE_length 4 m.ttl)],
    by rw [encode_drop23,
      take_len_append _ _ (natToBytesBE_length 4 (m.payload.length % 2 ^ 32))],
    encode_drop27 m⟩

def c1Msg : Message :=
  { msg_type := .request
    flags := 128
    payload := []
    timestamp := 0
    request_id := 0
    priority := 0
    ttl := 0
    routing_info := none
    context := none }

/-- C1 counterexample: the claim quantifies over any flags byte, but a valid
`Message` whose flags byte has the undefined 0x80 bit set does not round-trip:
`from_bits_truncate` clears that bit on decode, so the flags field is not
reproduced (128 becomes 0) even though `routing_info`/`context` are already
absent. -/
theorem c1_roundtrip_cex :
    c1Msg.flags = 128 ∧ c1Msg.routing_info = none ∧ c1Msg.context = none ∧
    Message.decode (Message.encode c1Msg) ≠ .ok c1Msg ∧
    Message.decode (Message.encode c1Msg) = .ok { c1Msg with flags := 0 } := by
  refine ⟨rfl, rfl, rfl, ?_, ?_⟩ <;> decide

/-- C1 (amended): for every valid `Message` (type one of the four variants,
flags and priority any byte, timestamp and request_id any u64, ttl any u32,
payload of length below 2^32), `decode(encode(m))` succeeds and reproduces
every field of `m` except that `routing_info`/`context` decode to `none` and
the flags byte is masked to its seven defined bits (the 0x80 bit is
cleared). -/
theorem c1_roundtrip_amended (m : Message) (_hflags : m.flags < 256)
    (_hprio : m.priority < 256) (hts : m.timestamp < 2 ^ 64)
    (hrid : m.request_id < 2 ^ 64) (httl : m.ttl < 2 ^ 32)
    (hlen : m.payload.length < 2 ^ 32) :
    Message.decode (Message.encode m) =
      .ok { m with flags := m.flags &&& 127, routing_info := none,
                   context := none } :=
  decode_encode m hts hrid httl hlen

def c1WMsg : Message :=
  { msg_type := .event
    flags := 255
    payload := [1, 2, 3]
    timestamp := 12345
    request_id := 67890
    priority := 7
    ttl := 3600
    routing_info := some "r"
    context := none }

theorem c1_roundtrip_amended_witness :
    Message.decode (Message.encode c1WMsg) =
      .ok { c1WMsg with flags := c1WMsg.flags &&& 127, routing_info := none,
                        context := none } :=
  c1_roundtrip_amended c1WMsg (by decide) (by decide) (by decide) (by decide)
    (by decide) (by decide)

/-- C4: every successfully decoded message has a payload whose length equals
the payload length declared at bytes 23..27 of the input header, flags equal
to the input flags byte truncated to the seven defined bits (hence below 128
— the 0x80 bit is cleared), and no value of the flags byte (index 1) changes
whether decoding succeeds.  The `msg_type` of any decoded message is one of
the four known variants by construction of the `MessageType` type. -/
theorem c4_decode_invariants :
    (∀ buf m, Message.decode buf = .ok m →
        m.payload.length = bytesToNatBE ((buf.drop 23).take 4) ∧
        m.flags = MessageFlags.from_bits_truncate (buf.getD 1 0) ∧
        m.flags < 128) ∧
    (∀ b0 b1 v rest,
        (Message.decode (b0 :: b1 :: rest)).succeeds ↔
          (Message.decode (b0 :: v :: rest)).succeeds) := by
  constructor
  · intro buf m h
    simp only [Message.decode] at h
    split at h
    · exact absurd h (by simp)
    · split at h
      · exact absurd h (by simp)
      · split at h
        · exact absurd h (by simp)
        · split at h
          · exact absurd h (by simp)
          · rename_i hbig hty h27 hpl
            rw [DecodeResult.ok.injEq] at h
            subst h
            refine ⟨?_, rfl, ?_⟩
            · simp only [List.length_take, List.length_drop]
              omega
            · have : (buf.getD 1 0) &&& 127 ≤ 127 := Nat.and_le_right
              simp only [MessageFlags.from_bits_truncate, MessageFlags.ALL]
              omega
  · intro b0 b1 v rest
    have h1 : (b0 :: b1 :: rest : List Nat).getD 0 0
        = (b0 :: v :: rest : List Nat).getD 0 0 := rfl
    have h2 : (b0 :: b1 :: rest : List Nat).length
        = (b0 :: v :: rest : List Nat).length := by simp
    have h3 : (b0 :: b1 :: rest : List Nat).drop 23
        = (b0 :: v :: rest : List Nat).drop 23 := rfl
    rw [decode_succeeds_iff, decode_succeeds_iff, h1, h2, h3]

def c4Buf : List Nat :=
  Message.encode
    { msg_type := .response
      flags := 255
      payload := [9]
      timestamp := 1
      request_id := 2
      priority := 3
      ttl := 4
      routing_info := none
      context := none }

def c4Msg : Message :=
  { msg_type := .response
    flags := 127
    payload := [9]
    timestamp := 1
    request_id := 2
    priority := 3
    ttl := 4
    routing_info := none
    context := none }

theorem c4_decode_invariants_witness :
    c4Msg.payload.length = bytesToNatBE ((c4Buf.drop 23).take 4) ∧
    c4Msg.flags = MessageFlags.from_bits_truncate (c4Buf.getD 1 0) ∧
    c4Msg.flags < 128 :=
  c4_decode_invariants.1 c4Buf c4Msg (by decide)

/-- Outcome of the `Transport::receive` loop: a decoded message together with
the remaining read buffer and the not-yet-consumed incoming chunks, a
returned error, or a propagated decode panic. -/
inductive ReceiveOutcome where
  | ok (m : Message) (readBuf : List Nat) (incoming : List (List Nat))
  | err (e : ProtocolError)
  | panicked
deriving DecidableEq

/-- One iteration of the `Transport::receive` loop body without pulling:
`none` when more bytes are needed (fewer than 4 buffered, or fewer than the
parsed length prefix plus 4), otherwise the decode result of the frame body
paired with the read buffer after consuming the prefix and the body. -/
def receiveStep (buf : List Nat) : Option (DecodeResult × List Nat) :=
  if buf.length < 4 then none
  else
    let len := bytesToNatBE (buf.take 4)
    if buf.length < 4 + len then none
    else some (Message.decode ((buf.drop 4).take len), buf.drop (4 + len))

def packOutcome : DecodeResult → List Nat → List (List Nat) → ReceiveOutcome
  | .ok m, buf, inc => .ok m buf inc
  | .err e, _, _ => .err e
  | .panicked, _, _ => .panicked

/-- The `Transport::receive` loop of src/transport.rs.  `chunks` is the
sequence of byte groups successive `read_buf` calls on the endpoint append to
the read buffer; an exhausted sequence or an empty chunk is a zero-byte read,
which the code reports as the "Connection closed" format error.  Each loop
iteration first retries the completeness checks and only pulls when the frame
is still incomplete, exactly as the Rust `loop`/`continue` structure does. -/
def receiveLoop (buf : List Nat) : List (List Nat) → ReceiveOutcome
  | [] =>
    match receiveStep buf with
    | some (res, buf') => packOutcome res buf' []
    | none => .err (.invalidFormat "Connection closed")
  | c :: cs =>
    match receiveStep buf with
    | some (res, buf') => packOutcome res buf' (c :: cs)
    | none =>
      if c.length = 0 then .err (.invalidFormat "Connection closed")
      else receiveLoop (buf ++ c) cs

/-- The state owned by `Transport<T>`: persistent read and write buffers plus
the endpoint, the latter represented by the chunks its future reads yield. -/
structure TransportState where
  readBuf : List Nat
  writeBuf : List Nat
  incoming : List (List Nat)
deriving DecidableEq

inductive TransportReceive where
  | ok (m : Message) (s : TransportState)
  | err (e : ProtocolError)
  | panicked
deriving DecidableEq

/-- `Transport::receive`: runs the loop on the read buffer; the write buffer
is untouched. -/
def Transport.receive (s : TransportState) : TransportReceive :=
  match receiveLoop s.readBuf s.incoming with
  | .ok m buf' inc' => .ok m ⟨buf', s.writeBuf, inc'⟩
  | .err e => .err e
  | .panicked => .panicked

/-- The frame `Transport::send` puts on the wire: a 4-byte big-endian length
(`encoded.len() as u32`) followed by the encoded message. -/
def frameOf (m : Message) : List Nat :=
  natToBytesBE 4 ((Message.encode m).length % 2 ^ 32) ++ Message.encode m

/-- The in-memory view a peer obtains of a sent message: flags masked to the
defined bits, the two non-serialised strings absent. -/
def Message.wireView (m : Message) : Message :=
  { m with flags := m.flags &&& 127, routing_info := none, context := none }

theorem receiveStep_none_of_proper (buf rest frame : List Nat)
    (hbuf : buf ++ rest = frame) (hlt : buf.length < frame.length)
    (hpref : bytesToNatBE (frame.take 4) + 4 = frame.length) :
    receiveStep buf = none := by
  simp only [receiveStep]
  by_cases h4 : buf.length < 4
  · rw [if_pos h4]
  · rw [if_neg h4]
    have htake : buf.take 4 = frame.take 4 := by
      rw [← hbuf, take_append_of_le _ _ 4 (by omega)]
    rw [htake, if_pos (by omega)]

theorem receiveStep_some_of_complete (buf : List Nat) (h4 : 4 ≤ buf.length)
    (hfit : 4 + bytesToNatBE (buf.take 4) ≤ buf.length) :
    receiveStep buf = some
      (Message.decode ((buf.drop 4).take (bytesToNatBE (buf.take 4))),
        buf.drop (4 + bytesToNatBE (buf.take 4))) := by
  simp only [receiveStep]
  rw [if_neg (by omega), if_neg (by omega)]

theorem receiveStep_some_inv (buf : List Nat) (res : DecodeResult)
    (b2 : List Nat) (h : receiveStep buf = some (res, b2)) :
    4 + bytesToNatBE (buf.take 4) ≤ buf.length ∧
    res = Message.decode ((buf.drop 4).take (bytesToNatBE (buf.take 4))) ∧
    b2 = buf.drop (4 + bytesToNatBE (buf.take 4)) := by
  simp only [receiveStep] at h
  split at h
  · exact absurd h (by simp)
  · split at h
    · exact absurd h (by simp)
    · rename_i h4 hfit
      rw [Option.some.injEq, Prod.mk.injEq] at h
      exact ⟨by omega, h.1.symm, h.2.symm⟩

theorem packOutcome_ok_inv (res : DecodeResult) (b2 : List Nat)
    (inc : List (List Nat)) (m : Message) (buf' : List Nat)
    (chunks' : List (List Nat))
    (h : packOutcome res b2 inc = .ok m buf' chunks') :
    res = .ok m ∧ buf' = b2 ∧ chunks' = inc := by
  cases res with
  | ok m0 =>
    simp only [packOutcome, ReceiveOutcome.ok.injEq] at h
    exact ⟨by rw [h.1], h.2.1.symm, h.2.2.symm⟩
  | err e => exact absurd h (by simp [packOutcome])
  | panicked => exact absurd h (by simp [packOutcome])

/-- Delivering a complete frame in arbitrary non-empty pieces runs the loop to
the same outcome as starting with the whole frame buffered. -/
theorem receiveLoop_join (frame : List Nat)
    (hpref : bytesToNatBE (frame.take 4) + 4 = frame.length) :
    ∀ (chunks : List (List Nat)) (buf : List Nat),
      (∀ c ∈ chunks, c ≠ []) → buf ++ chunks.flatten = frame →
      receiveLoop buf chunks = receiveLoop frame [] := by
  intro chunks
  induction chunks with
  | nil =>
    intro buf hne hjoin
    have hbuf : buf = frame := by simpa using hjoin
    rw [hbuf]
  | cons c cs ih =>
    intro buf hne hjoin
    have hcne : c ≠ [] := hne c (by simp)
    have hjoin' : buf ++ (c ++ cs.flatten) = frame := by
      simpa using hjoin
    have hlt : buf.length < frame.length := by
      have hlen := congrArg List.length hjoin'
      have hc : 0 < c.length := List.length_pos.mpr hcne
      simp only [List.length_append] at hlen
      omega
    simp only [receiveLoop,
      receiveStep_none_of_proper buf (c ++ cs.flatten) frame hjoin' hlt hpref]
    rw [if_neg (fun h => hcne (List.length_eq_zero.mp h))]
    exact ih (buf ++ c) (fun d hd => hne d (by simp [hd]))
      (by rw [List.append_assoc]; exact hjoin')

/-- Running the loop with a whole frame already buffered decodes its body. -/
theorem receiveLoop_whole (frame : List Nat) (h4 : 4 ≤ frame.length)
    (hpref : bytesToNatBE (frame.take 4) + 4 = frame.length) :
    receiveLoop frame [] = packOutcome (Message.decode (frame.drop 4)) [] [] := by
  simp only [receiveLoop,
    receiveStep_some_of_complete frame h4 (by omega)]
  have hlen4 : (frame.drop 4).length = bytesToNatBE (frame.take 4) := by
    simp only [List.length_drop]
    omega
  have hdropall : frame.drop (4 + bytesToNatBE (frame.take 4)) = [] := by
    apply List.drop_eq_nil_of_le
    omega
  rw [hdropall, ← hlen4, List.take_length]

theorem frameOf_pref (m : Message)
    (h : (Message.encode m).length < 2 ^ 32) :
    bytesToNatBE ((frameOf m).take 4) + 4 = (frameOf m).length := by
  unfold frameOf
  rw [take_len_append _ _ (natToBytesBE_length 4 _), bytesToNatBE_natToBytesBE,
    show (256 : Nat) ^ 4 = 2 ^ 32 by norm_num,
    Nat.mod_eq_of_lt h, Nat.mod_eq_of_lt h]
  simp [List.length_append, natToBytesBE_length]
  omega

theorem frameOf_length (m : Message) :
    (frameOf m).length = 4 + (Message.encode m).length := by
  simp [frameOf, List.length_append, natToBytesBE_length]

/-- C5: a valid encoded frame split into any sequence of non-empty chunks
delivered by successive underlying reads makes `Transport::receive` return
the same successfully decoded message as delivering the whole frame in one
read (and that message is the wire view of the sent one). -/
theorem c5_fragmentation_invariance (m : Message) (w : List Nat)
    (chunks : List (List Nat)) (hts : m.timestamp < 2 ^ 64)
    (hrid : m.request_id < 2 ^ 64) (httl : m.ttl < 2 ^ 32)
    (hlen : (Message.encode m).length < 2 ^ 32)
    (hne : ∀ c ∈ chunks, c ≠ []) (hjoin : chunks.flatten = frameOf m) :
    Transport.receive ⟨[], w, chunks⟩
        = Transport.receive ⟨[], w, [frameOf m]⟩ ∧
    Transport.receive ⟨[], w, chunks⟩
        = .ok (Message.wireView m) ⟨[], w, []⟩ := by
  have hpref := frameOf_pref m hlen
  have h4 : 4 ≤ (frameOf m).length := by
    rw [frameOf_length]
    omega
  have hdrop : (frameOf m).drop 4 = Message.encode m :=
    drop_len_append _ _ (natToBytesBE_length 4 _)
  have hdec : Message.decode ((frameOf m).drop 4) = .ok (Message.wireView m) := by
    rw [hdrop]
    exact decode_encode m hts hrid httl
      (by have := Message.encode_length m; omega)
  have hfrag : receiveLoop ([] : List Nat) chunks = receiveLoop (frameOf m) [] :=
    receiveLoop_join (frameOf m) hpref chunks [] hne (by simpa using hjoin)
  have hsingle : receiveLoop ([] : List Nat) [frameOf m]
      = receiveLoop (frameOf m) [] :=
    receiveLoop_join (frameOf m) hpref [frameOf m] []
      (by
        intro c hc
        simp only [List.mem_singleton] at hc
        subst hc
        intro hnil
        rw [hnil] at h4
        simp at h4)
      (by simp)
  constructor
  · simp only [Transport.receive]
    rw [hfrag, hsingle]
  · simp only [Transport.receive]
    rw [hfrag, receiveLoop_whole (frameOf m) h4 hpref, hdec]
    rfl

def c5Msg : Message :=
  { msg_type := .response
    flags := 1
    payload := [42]
    timestamp := 99
    request_id := 7
    priority := 0
    ttl := 30000
    routing_info := none
    context := none }

def c5Chunks : List (List Nat) :=
  [(frameOf c5Msg).take 5, (frameOf c5Msg).drop 5]

theorem c5_fragmentation_invariance_witness :
    Transport.receive ⟨[], [], c5Chunks⟩
        = Transport.receive ⟨[], [], [frameOf c5Msg]⟩ ∧
    Transport.receive ⟨[], [], c5Chunks⟩
        = .ok (Message.wireView c5Msg) ⟨[], [], []⟩ :=
  c5_fragmentation_invariance c5Msg [] c5Chunks (by decide) (by decide)
    (by decide) (by decide) (by decide) (by decide)

/-- On success, the loop consumed the pulled chunks and exactly one frame —
the 4-byte prefix plus the declared body — off the front of the accumulated
bytes, leaving the rest buffered. -/
theorem receiveLoop_ok_spec :
    ∀ (chunks : List (List Nat)) (buf : List Nat) (m : Message)
      (buf' : List Nat) (chunks' : List (List Nat)),
      receiveLoop buf chunks = .ok m buf' chunks' →
      ∃ pulled, chunks = pulled ++ chunks' ∧
        4 + bytesToNatBE ((buf ++ pulled.flatten).take 4)
            ≤ (buf ++ pulled.flatten).length ∧
        buf' = (buf ++ pulled.flatten).drop
            (4 + bytesToNatBE ((buf ++ pulled.flatten).take 4)) ∧
        Message.decode (((buf ++ pulled.flatten).drop 4).take
            (bytesToNatBE ((buf ++ pulled.flatten).take 4))) = .ok m := by
  intro chunks
  induction chunks with
  | nil =>
    intro buf m buf' chunks' h
    simp only [receiveLoop] at h
    rcases hstep : receiveStep buf with _ | ⟨res, b2⟩
    · simp only [hstep] at h
      exact absurd h (by simp)
    · simp only [hstep] at h
      obtain ⟨hfit, hres, hb2⟩ := receiveStep_some_inv buf res b2 hstep
      obtain ⟨hres2, hbuf', hchunks'⟩ :=
        packOutcome_ok_inv res b2 [] m buf' chunks' h
      refine ⟨[], by simp [hchunks'], ?_, ?_, ?_⟩
      · simpa using hfit
      · simpa using hbuf'.trans hb2
      · have := hres.symm.trans hres2
        simpa using this
  | cons c cs ih =>
    intro buf m buf' chunks' h
    simp only [receiveLoop] at h
    rcases hstep : receiveStep buf with _ | ⟨res, b2⟩
    · simp only [hstep] at h
      split at h
      · exact absurd h (by simp)
      · obtain ⟨pulled, hp, h1, h2, h3⟩ := ih (buf ++ c) m buf' chunks' h
        have hassoc : buf ++ (c :: pulled).flatten = (buf ++ c) ++ pulled.flatten := by
          simp [List.append_assoc]
        refine ⟨c :: pulled, by rw [hp]; rfl, ?_, ?_, ?_⟩
        · rw [hassoc]; exact h1
        · rw [hassoc]; exact h2
        · rw [hassoc]; exact h3
    · simp only [hstep] at h
      obtain ⟨hfit, hres, hb2⟩ := receiveStep_some_inv buf res b2 hstep
      obtain ⟨hres2, hbuf', hchunks'⟩ :=
        packOutcome_ok_inv res b2 (c :: cs) m buf' chunks' h
      refine ⟨[], by simp [hchunks'], ?_, ?_, ?_⟩
      · simpa using hfit
      · simpa using hbuf'.trans hb2
      · have := hres.symm.trans hres2
        simpa using this

/-- C10: a successful `Transport::receive` consumes from the front of the
accumulated read-buffer bytes exactly one frame — the 4-byte length prefix and
the `len`-byte body that decodes to the returned message — leaves every byte
beyond that frame in the read buffer for the next call, consumes a prefix of
the endpoint's pending reads, and leaves the write buffer unchanged. -/
theorem c10_receive_frame_consumption (s : TransportState) (m : Message)
    (s' : TransportState) (h : Transport.receive s = .ok m s') :
    s'.writeBuf = s.writeBuf ∧
    ∃ pulled, s.incoming = pulled ++ s'.incoming ∧
      4 + bytesToNatBE ((s.readBuf ++ pulled.flatten).take 4)
          ≤ (s.readBuf ++ pulled.flatten).length ∧
      s'.readBuf = (s.readBuf ++ pulled.flatten).drop
          (4 + bytesToNatBE ((s.readBuf ++ pulled.flatten).take 4)) ∧
      Message.decode (((s.readBuf ++ pulled.flatten).drop 4).take
          (bytesToNatBE ((s.readBuf ++ pulled.flatten).take 4))) = .ok m := by
  simp only [Transport.receive] at h
  cases hloop : receiveLoop s.readBuf s.incoming with
  | ok m0 buf2 inc2 =>
    rw [hloop] at h
    rw [TransportReceive.ok.injEq] at h
    obtain ⟨hm, hs⟩ := h
    obtain ⟨pulled, hp, h1, h2, h3⟩ :=
      receiveLoop_ok_spec s.incoming s.readBuf m0 buf2 inc2 hloop
    refine ⟨by rw [← hs], pulled, ?_, h1, ?_, ?_⟩
    · rw [hp, ← hs]
    · rw [← hs]
      exact h2
    · rw [← hm]
      exact h3
  | err e =>
    rw [hloop] at h
    exact absurd h (by simp)
  | panicked =>
    rw [hloop] at h
    exact absurd h (by simp)

def c10Msg : Message :=
  { msg_type := .request
    flags := 0
    payload := []
    timestamp := 0
    request_id := 0
    priority := 0
    ttl := 30000
    routing_info := none
    context := none }

def c10State : TransportState :=
  { readBuf := frameOf c10Msg ++ [1, 2, 3]
    writeBuf := [7]
    incoming := [[4]] }

def c10State' : TransportState :=
  { readBuf := [1, 2, 3]
    writeBuf := [7]
    incoming := [[4]] }

theorem c10_receive_frame_consumption_witness :
    c10State'.writeBuf = c10State.writeBuf :=
  (c10_receive_frame_consumption c10State (Message.wireView c10Msg) c10State'
    (by decide)).1

/-- `compress_if_beneficial` from src/compression.rs, parameterised by the
external zstd compressor the crate calls: keep the compressed form only when
strictly smaller, otherwise return the input unchanged. -/
def compress_if_beneficial
    (compressFn : List Nat → Except ProtocolError (List Nat))
    (data : List Nat) : Except ProtocolError (List Nat) :=
  match compressFn data with
  | .error e => .error e
  | .ok compressed =>
    if compressed.length < data.length then .ok compressed else .ok data

/-- C8: whenever compression succeeds, `compress_if_beneficial` returns the
compressed form exactly when it is strictly smaller than the input and the
input itself otherwise, so its result is never longer than the input. -/
theorem c8_compress_if_beneficial_spec
    (compressFn : List Nat → Except ProtocolError (List Nat))
    (data c : List Nat) (h : compressFn data = .ok c) :
    compress_if_beneficial compressFn data
        = .ok (if c.length < data.length then c else data) ∧
    ∀ r, compress_if_beneficial compressFn data = .ok r →
      r.length ≤ data.length := by
  have h1 : compress_if_beneficial compressFn data
      = .ok (if c.length < data.length then c else data) := by
    by_cases hc : c.length < data.length <;>
      simp [compress_if_beneficial, h, hc]
  refine ⟨h1, ?_⟩
  intro r hr
  rw [h1, Except.ok.injEq] at hr
  subst hr
  split <;> omega

def c8Compress (_l : List Nat) : Except ProtocolError (List Nat) := .ok []

theorem c8_compress_if_beneficial_spec_witness :
    compress_if_beneficial c8Compress [5, 6]
        = .ok (if ([] : List Nat).length < [5, 6].length then [] else [5, 6]) ∧
    ∀ r, compress_if_beneficial c8Compress [5, 6] = .ok r →
      r.length ≤ [5, 6].length :=
  c8_compress_if_beneficial_spec c8Compress [5, 6] [] rfl

/-- `RemusClient::prepare_payload` from src/client.rs: compress-if-beneficial,
then encrypt when an encryptor is configured.  The configured encryptor is
its `encrypt` method, the compressor the external zstd call. -/
def prepare_payload
    (compressFn : List Nat → Except ProtocolError (List Nat))
    (encryptor : Option (List Nat → Except ProtocolError (List Nat)))
    (data : List Nat) : Except ProtocolError (List Nat) :=
  match compress_if_beneficial compressFn data with
  | .error e => .error e
  | .ok compressed =>
    match encryptor with
    | some encryptFn => encryptFn compressed
    | none => .ok compressed

/-- `RemusClient::request` from src/client.rs on its successful path: prepare
the payload, build one Request message via `Message::new` with the random
correlation id `rid` and the IDEMPOTENT flag, send it, and return the received
response's payload untouched.  The messages put on the transport are
returned explicitly; `rid`, the clock value `now` and the peer's `response`
are inputs of the model. -/
def RemusClient.request
    (compressFn : List Nat → Except ProtocolError (List Nat))
    (encryptor : Option (List Nat → Except ProtocolError (List Nat)))
    (rid now : Nat) (response : Message) (data : List Nat) :
    Except ProtocolError (List Message × List Nat) :=
  match prepare_payload compressFn encryptor data with
  | .error e => .error e
  | .ok p =>
    .ok ([Message.new .request MessageFlags.IDEMPOTENT rid p now],
      response.payload)

/-- C6: a successful `request(p)` sends exactly one message, of type Request,
whose flags contain the Idempotent bit, carrying the prepared payload
(compress-if-beneficial, then encrypt exactly when an encryptor is
configured), and returns the response payload unchanged — no decompression or
decryption is applied to it, whether or not an encryptor is configured. -/
theorem c6_request_behavior
    (compressFn : List Nat → Except ProtocolError (List Nat))
    (encryptor : Option (List Nat → Except ProtocolError (List Nat)))
    (rid now : Nat) (response : Message) (data : List Nat)
    (sent : List Message) (ret : List Nat)
    (h : RemusClient.request compressFn encryptor rid now response data
        = .ok (sent, ret)) :
    ∃ p, prepare_payload compressFn encryptor data = .ok p ∧
      sent = [Message.new .request MessageFlags.IDEMPOTENT rid p now] ∧
      sent.length = 1 ∧
      (∀ q ∈ sent, q.msg_type = .request ∧
          q.flags &&& MessageFlags.IDEMPOTENT = MessageFlags.IDEMPOTENT ∧
          q.payload = p) ∧
      (∃ c, compress_if_beneficial compressFn data = .ok c ∧
        ((encryptor = none ∧ p = c) ∨
          (∃ ef, encryptor = some ef ∧ ef c = .ok p))) ∧
      ret = response.payload := by
  simp only [RemusClient.request] at h
  rcases hp : prepare_payload compressFn encryptor data with e | p
  · simp only [hp] at h
    exact absurd h (by simp)
  · simp only [hp] at h
    rw [Except.ok.injEq, Prod.mk.injEq] at h
    obtain ⟨hsent, hret⟩ := h
    refine ⟨p, rfl, hsent.symm, by rw [← hsent]; rfl, ?_, ?_, hret.symm⟩
    · intro q hq
      rw [← hsent] at hq
      simp only [List.mem_singleton] at hq
      subst hq
      refine ⟨rfl, ?_, rfl⟩
      show MessageFlags.IDEMPOTENT &&& MessageFlags.IDEMPOTENT
          = MessageFlags.IDEMPOTENT
      decide
    · simp only [prepare_payload] at hp
      rcases hc : compress_if_beneficial compressFn data with e | c
      · simp only [hc] at hp
        exact absurd hp (by simp)
      · simp only [hc] at hp
        refine ⟨c, rfl, ?_⟩
        cases encryptor with
        | none =>
          simp only [Except.ok.injEq] at hp
          exact Or.inl ⟨rfl, hp.symm⟩
        | some ef =>
          exact Or.inr ⟨ef, rfl, hp⟩

def c6Compress (l : List Nat) : Except ProtocolError (List Nat) := .ok l

def c6Encrypt (l : List Nat) : Except ProtocolError (List Nat) := .ok (0 :: l)

def c6Response : Message :=
  { msg_type := .response
    flags := 0
    payload := [8, 9]
    timestamp := 5
    request_id := 3
    priority := 0
    ttl := 30000
    routing_info := none
    context := none }

theorem c6_request_behavior_witness :
    ∃ p, prepare_payload c6Compress (some c6Encrypt) [1, 2] = .ok p ∧
      [Message.new .request MessageFlags.IDEMPOTENT 11 [0, 1, 2] 22]
          = [Message.new .request MessageFlags.IDEMPOTENT 11 p 22] ∧
      ([Message.new .request MessageFlags.IDEMPOTENT 11 [0, 1, 2] 22]).length
          = 1 ∧
      (∀ q ∈ [Message.new .request MessageFlags.IDEMPOTENT 11 [0, 1, 2] 22],
          q.msg_type = .request ∧
          q.flags &&& MessageFlags.IDEMPOTENT = MessageFlags.IDEMPOTENT ∧
          q.payload = p) ∧
      (∃ c, compress_if_beneficial c6Compress [1, 2] = .ok c ∧
        ((some c6Encrypt = none ∧ p = c) ∨
          (∃ ef, some c6Encrypt = some ef ∧ ef c = .ok p))) ∧
      c6Response.payload = c6Response.payload :=
  c6_request_behavior c6Compress (some c6Encrypt) 11 22 c6Response [1, 2]
    [Message.new .request MessageFlags.IDEMPOTENT 11 [0, 1, 2] 22]
    c6Response.payload rfl

/-- The keyed AES-256-GCM primitive of the aes-gcm crate, abstracted: `enc`
and `dec` are the cipher's encrypt/decrypt for one fixed key (the `cipher`
field the Rust `Encryptor` stores). -/
structure Aead where
  enc : List Nat → List Nat → Except String (List Nat)
  dec : List Nat → List Nat → Except String (List Nat)

/-- `Encryptor::encrypt` from src/encryption.rs: the freshly drawn 12-byte
nonce is an input; the output is nonce followed by the cipher's output. -/
def Encryptor.encrypt (a : Aead) (nonce_bytes data : List Nat) :
    Except ProtocolError (List Nat) :=
  match a.enc nonce_bytes data with
  | .error e => .error (.encryptionError e)
  | .ok ciphertext => .ok (nonce_bytes ++ ciphertext)

/-- `Encryptor::decrypt` from src/encryption.rs: inputs shorter than 12 bytes
are rejected, then the nonce is split off and the cipher is consulted. -/
def Encryptor.decrypt (a : Aead) (data : List Nat) :
    Except ProtocolError (List Nat) :=
  if data.length < 12 then .error (.encryptionError "Data too short")
  else
    match a.dec (data.take 12) (data.drop 12) with
    | .error e => .error (.encryptionError e)
    | .ok plaintext => .ok plaintext

/-- C7: for every key (an `Aead` is the cipher already keyed) whose AEAD
primitive round-trips, every 12-byte nonce the encryptor may draw, and every
byte sequence `x`, decrypting any successful output of `encrypt` with the same
key succeeds and returns exactly `x`. -/
theorem c7_encrypt_decrypt_roundtrip (a : Aead) (nonce x out : List Nat)
    (hcorrect : ∀ n pt ct, a.enc n pt = .ok ct → a.dec n ct = .ok pt)
    (hn : nonce.length = 12)
    (henc : Encryptor.encrypt a nonce x = .ok out) :
    Encryptor.decrypt a out = .ok x := by
  simp only [Encryptor.encrypt] at henc
  rcases hct : a.enc nonce x with e | ct
  · simp only [hct] at henc
    exact absurd henc (by simp)
  · simp only [hct] at henc
    rw [Except.ok.injEq] at henc
    subst henc
    simp only [Encryptor.decrypt]
    rw [if_neg (by rw [List.length_append, hn]; omega),
      take_len_append _ _ hn, drop_len_append _ _ hn,
      hcorrect nonce x ct hct]

def c7Aead : Aead :=
  { enc := fun _ d => .ok d
    dec := fun _ c => .ok c }

theorem c7_encrypt_decrypt_roundtrip_witness :
    Encryptor.decrypt c7Aead (List.replicate 12 0 ++ [3, 4]) = .ok [3, 4] :=
  c7_encrypt_decrypt_roundtrip c7Aead (List.replicate 12 0) [3, 4]
    (List.replicate 12 0 ++ [3, 4])
    (fun n pt ct h => by
      have hpt : pt = ct := Except.ok.inj h
      rw [hpt]
      rfl)
    (by simp)
    rfl

/-- The state of a `MessageStream` from src/stream.rs together with its
channel: `queue` holds the messages currently buffered in the mpsc channel
and `senderDropped` records whether the producer half is gone. -/
structure StreamState where
  closed : Bool
  queue : List Message
  senderDropped : Bool
deriving DecidableEq

/-- The outcome of one `poll_next` call (`Poll<Option<Item>>`; the `Ok`
wrapper around delivered messages is omitted since the code never yields an
error item). -/
inductive Poll where
  | ready (item : Option Message)
  | pending
deriving DecidableEq

/-- `poll_next` of the `Stream` impl in src/stream.rs.  `isEnd` abstracts the
test `msg.msg_type == MessageType::StreamEnd` (the stream-end marker; the
variant is referenced there but not defined by the crate's `MessageType`).
`poll_recv` yields a buffered message when one exists, end-of-channel when
the queue is empty and the sender is dropped, and pending otherwise. -/
def MessageStream.poll_next (isEnd : Message → Bool) (s : StreamState) :
    Poll × StreamState :=
  if s.closed then (.ready none, s)
  else
    match s.queue with
    | msg :: rest =>
      if isEnd msg then
        (.ready (some msg), { s with closed := true, queue := rest })
      else
        (.ready (some msg), { s with queue := rest })
    | [] =>
      if s.senderDropped then (.ready none, { s with closed := true })
      else (.pending, s)

/-- A sequence of `poll_next` calls; before each call the environment may
push further messages into the queue and may drop the sender. -/
def pollSeq (isEnd : Message → Bool) :
    StreamState → List (List Message × Bool) → List Poll
  | _, [] => []
  | s, (pushed, dropNow) :: env =>
    let s1 : StreamState :=
      { closed := s.closed, queue := s.queue ++ pushed,
        senderDropped := s.senderDropped || dropNow }
    let r := MessageStream.poll_next isEnd s1
    r.1 :: pollSeq isEnd r.2 env

theorem poll_next_closed (isEnd : Message → Bool) (s : StreamState)
    (h : s.closed = true) :
    MessageStream.poll_next isEnd s = (.ready none, s) := by
  simp [MessageStream.poll_next, h]

theorem pollSeq_closed (isEnd : Message → Bool) :
    ∀ (env : List (List Message × Bool)) (s : StreamState), s.closed = true →
      ∀ q ∈ pollSeq isEnd s env, q = .ready none := by
  intro env
  induction env with
  | nil =>
    intro s h q hq
    simp [pollSeq] at hq
  | cons e env ih =>
    intro s h q hq
    obtain ⟨pushed, dropNow⟩ := e
    simp only [pollSeq] at hq
    rw [poll_next_closed isEnd
      { closed := s.closed, queue := s.queue ++ pushed,
        senderDropped := s.senderDropped || dropNow } h] at hq
    simp only [List.mem_cons] at hq
    rcases hq with hq | hq
    · exact hq
    · exact ih ⟨s.closed, s.queue ++ pushed, s.senderDropped || dropNow⟩ h q hq

/-- C9: a `MessageStream` is not restartable — as soon as a `poll_next` call
closes the stream (it yielded the stream-end marker, or it reported
end-of-channel, which happens when the producer is dropped or the stream was
already closed), every later `poll_next` call returns the end-of-stream
result, permanently, no matter what is pushed into the queue or done to the
sender in between. -/
theorem c9_stream_non_restartable (isEnd : Message → Bool)
    (s s' : StreamState) (r : Poll)
    (hpoll : MessageStream.poll_next isEnd s = (r, s'))
    (hclose : r = .ready none ∨
      ∃ msg, r = .ready (some msg) ∧ isEnd msg = true) :
    s'.closed = true ∧
    ∀ env, ∀ q ∈ pollSeq isEnd s' env, q = .ready none := by
  have hclosed : s'.closed = true := by
    simp only [MessageStream.poll_next] at hpoll
    split at hpoll
    · rename_i hc
      rw [Prod.mk.injEq] at hpoll
      rw [← hpoll.2]
      exact hc
    · split at hpoll
      · rename_i hc msg rest hq
        split at hpoll
        · rw [Prod.mk.injEq] at hpoll
          rw [← hpoll.2]
        · rename_i hend
          rw [Prod.mk.injEq] at hpoll
          rcases hclose with hr | ⟨msg2, hr, hend2⟩
          · rw [← hpoll.1] at hr
            exact absurd hr (by simp)
          · rw [← hpoll.1] at hr
            rw [Poll.ready.injEq, Option.some.injEq] at hr
            rw [← hr] at hend2
            exact absurd hend2 hend
      · split at hpoll
        · rw [Prod.mk.injEq] at hpoll
          rw [← hpoll.2]
        · rw [Prod.mk.injEq] at hpoll
          rcases hclose with hr | ⟨msg2, hr, hend2⟩
          · rw [← hpoll.1] at hr
            exact absurd hr (by simp)
          · rw [← hpoll.1] at hr
            exact absurd hr (by simp)
  exact ⟨hclosed, fun env => pollSeq_closed isEnd env s' hclosed⟩

def c9End : Message :=
  { msg_type := .error
    flags := 0
    payload := []
    timestamp := 0
    request_id := 0
    priority := 0
    ttl := 30000
    routing_info := none
    context := none }

def c9IsEnd (m : Message) : Bool := decide (m.msg_type = MessageType.error)

def c9Start : StreamState :=
  { closed := false, queue := [c9End], senderDropped := false }

def c9Closed : StreamState :=
  { closed := true, queue := [], senderDropped := false }

theorem c9_stream_non_restartable_witness : c9Closed.closed = true :=
  (c9_stream_non_restartable c9IsEnd c9Start c9Closed (.ready (some c9End))
    (by decide) (Or.inr ⟨c9End, rfl, by decide⟩)).1

end Remus
